import Mathlib

/-!
Verification of the experiment registration and asynchronous script-loading
mechanism of the jspsych-app repository.

The runtime file exercised by src/__tests__/experiment-loader.test.js
(templates/app/www/js/experiment-loader.js) is not present in the source
tree, so the registry and loader operations below are modelled from the
specification (spec.md sections 3, 4 and 7) and the observable contract the
test suite relies on.  The registration guards of the generated experiment
units are embedded directly from src/lib/create-app.js.
-/

namespace ExperimentLoader

/-- Diagnostic trace entries emitted to the console-equivalent sink. -/
inductive LogEntry where
  | loading (names : List String)
  | registering (name : String)
  | loaded (name : String)
  | failed (name : String) (err : Option String)
  deriving DecidableEq

/-- Text of a load-failure payload as the console would display it. -/
def errText (e : Option String) : String :=
  match e with
  | some s => s
  | none => "undefined"

/-- Rendering of a trace entry to the console message of the source. -/
def render : LogEntry → String
  | .loading names => "Loading experiments: " ++ String.intercalate ", " names
  | .registering name => "Registering experiment: " ++ name
  | .loaded name => "Loaded experiment: " ++ name
  | .failed name e => "Failed to load experiment " ++ name ++ ": " ++ errText e

/-- Modelled from the spec: the process-wide state touched by the missing
experiment-loader.js — the registry map (name to module), the diagnostic
trace already emitted, and the loadable-unit (script) descriptors appended
to the document head, in order of appending.  The module type is an opaque
parameter: modules are stored and returned by reference, never inspected. -/
structure LoaderState (M : Type) where
  registry : List (String × M)
  log : List LogEntry
  scripts : List String
  deriving DecidableEq

variable {M : Type}

/-- Modelled from the spec: the registry as created at module load, before
any registration. -/
def initialState : LoaderState M :=
  { registry := [], log := [], scripts := [] }

/-- Lookup of a name in the registry map (first matching key). -/
def lookupReg : List (String × M) → String → Option M
  | [], _ => none
  | p :: t, name => if p.1 == name then some p.2 else lookupReg t name

/-- Map update for the registry: overwrite in place when the key already
exists, otherwise append the new binding (last registration wins). -/
def registerMap : List (String × M) → String → M → List (String × M)
  | [], name, m => [(name, m)]
  | p :: t, name, m =>
    if p.1 == name then (name, m) :: t else p :: registerMap t name m

/-- Modelled from the spec: register (experiment-loader.js is missing from
the tree).  Requires a non-empty name (spec section 4.1: no input validation
beyond requiring a non-empty name); the empty name is rejected as a no-op.
Otherwise it mutates the shared map, silently overwriting an existing entry,
and emits the diagnostic trace noting the name being registered. -/
def register (name : String) (m : M) (s : LoaderState M) : LoaderState M :=
  if name = "" then s
  else
    { s with
      registry := registerMap s.registry name m,
      log := s.log ++ [LogEntry.registering name] }

/-- Modelled from the spec: get — pure lookup, returns the absent sentinel
(none) when the name is unknown. -/
def get (name : String) (s : LoaderState M) : Option M :=
  lookupReg s.registry name

/-- Modelled from the spec: getAll — the full current contents of the
registry. -/
def getAll (s : LoaderState M) : List (String × M) :=
  s.registry

/-- Outcome of the external dynamic code-load of one path: the load either
fails (the rejection payload, if any, is the option) or succeeds, in which
case the evaluated unit performs the given register calls, in order, before
the load-completion event fires. -/
inductive LoadOutcome (M : Type) where
  | failure (err : Option String)
  | success (regs : List (String × M))
  deriving DecidableEq

/-- The external environment: what loading each path does. -/
abbrev LoadEnv (M : Type) := String → LoadOutcome M

/-- Whether an outcome is a success. -/
def LoadOutcome.isSuccess : LoadOutcome M → Bool
  | .failure _ => false
  | .success _ => true

/-- The fixed, non-configurable path template for an experiment unit. -/
def experimentPath (name : String) : String :=
  "js/experiments/" ++ name ++ "/index.js"

/-- The register calls performed by the unit of a given experiment name
(empty when its load fails, since a failed script does not evaluate). -/
def regsFor (env : LoadEnv M) (name : String) : List (String × M) :=
  match env (experimentPath name) with
  | .failure _ => []
  | .success regs => regs

/-- Runs a sequence of register calls against the loader state. -/
def runRegs : List (String × M) → LoaderState M → LoaderState M
  | [], s => s
  | p :: rest, s => runRegs rest (register p.1 p.2 s)

/-- Registry-level effect of a sequence of register calls. -/
def applyRegs : List (String × M) → List (String × M) → List (String × M)
  | [], r => r
  | p :: rest, r => applyRegs rest (if p.1 = "" then r else registerMap r p.1 p.2)

/-- Modelled from the spec: loadScript (experiment-loader.js is missing from
the tree).  Appends exactly one loadable-unit descriptor carrying the source
path to the document head, then the external load either rejects with the
failure payload (the unit is not evaluated) or evaluates the unit — which
performs its register calls — and resolves with no value. -/
def loadScript (env : LoadEnv M) (path : String) (s : LoaderState M) :
    Except (Option String) Unit × LoaderState M :=
  let s1 : LoaderState M := { s with scripts := s.scripts ++ [path] }
  match env path with
  | .failure e => (Except.error e, s1)
  | .success regs => (Except.ok (), runRegs regs s1)

/-- Modelled from the spec: one iteration of the loadExperiments loop —
await loadScript on the unit path; on success trace the loaded name, on
failure trace the failure and continue. -/
def loadOne (env : LoadEnv M) (name : String) (s : LoaderState M) :
    LoaderState M :=
  match loadScript env (experimentPath name) s with
  | (Except.ok _, s1) => { s1 with log := s1.log ++ [LogEntry.loaded name] }
  | (Except.error e, s1) => { s1 with log := s1.log ++ [LogEntry.failed name e] }

/-- Modelled from the spec: the sequential loop of loadExperiments — each
name is fully processed (its load awaited) before the next one starts. -/
def loadLoop (env : LoadEnv M) : List String → LoaderState M → LoaderState M
  | [], s => s
  | n :: rest, s => loadLoop env rest (loadOne env n s)

/-- Modelled from the spec: loadExperiments — trace the full requested name
list, load each name in sequence with per-unit failure isolation, then
resolve with the full current contents of the registry. -/
def loadExperiments (env : LoadEnv M) (names : List String)
    (s : LoaderState M) : List (String × M) × LoaderState M :=
  let s1 : LoaderState M := { s with log := s.log ++ [LogEntry.loading names] }
  let s2 := loadLoop env names s1
  (getAll s2, s2)

/-- Registry contents after the loop, as a pure fold at registry level. -/
def registryAfter (env : LoadEnv M) : List String → List (String × M) →
    List (String × M)
  | [], r => r
  | n :: rest, r => registryAfter env rest (applyRegs (regsFor env n) r)

/-- Modelled from the spec: a reference-level view of the registry, needed
for the reference-vs-copy contract of getAll (experiment-loader.js is
missing from the tree; the test suite resets state by deleting the keys of
the object returned by getAll, so getAll hands out the backing map itself).
Map objects live in a store addressed by index; the loader holds the address
of the one backing map. -/
structure RegistryHeap (M : Type) where
  store : List (List (String × M))
  backing : Nat

/-- Dereferences a map address in the store. -/
def heapGetMap (h : RegistryHeap M) (a : Nat) : List (String × M) :=
  h.store.getD a []

/-- Modelled from the spec: register, acting through the backing map
reference. -/
def hRegister (name : String) (m : M) (h : RegistryHeap M) : RegistryHeap M :=
  if name = "" then h
  else
    { h with
      store := h.store.set h.backing
        (registerMap (heapGetMap h h.backing) name m) }

/-- Modelled from the spec: get, reading through the backing map
reference. -/
def hGet (name : String) (h : RegistryHeap M) : Option M :=
  lookupReg (heapGetMap h h.backing) name

/-- Modelled from the spec: getAll returns the backing map itself — the
address of the live registry object, not the address of a copy. -/
def hGetAll (h : RegistryHeap M) : Nat :=
  h.backing

/-- A caller deleting every key through a map reference: the object at that
address becomes empty. -/
def deleteAllKeys (a : Nat) (h : RegistryHeap M) : RegistryHeap M :=
  { h with store := h.store.set a [] }

/-- Embeds the registration guard of the generated profile experiment unit
(src/lib/create-app.js, profileExperimentContent, lines 167-173): the IIFE
calls window.ExperimentLoader.register only when window.ExperimentLoader is
defined.  The window's loader slot is Option (LoaderState M): none when the
loader is absent.  Evaluation yields an Except so that a thrown JS exception
(which an unguarded access would raise) is representable. -/
def evalProfileUnit (m : M) (w : Option (LoaderState M)) :
    Except String (Option (LoaderState M)) :=
  match w with
  | some s => Except.ok (some (register "profile" m s))
  | none => Except.ok none

/-- Embeds the registration guard of the generated sample experiment unit
(src/lib/create-app.js, sampleExperimentContent, lines 207-212), with the
same window model as evalProfileUnit. -/
def evalSampleUnit (m : M) (w : Option (LoaderState M)) :
    Except String (Option (LoaderState M)) :=
  match w with
  | some s => Except.ok (some (register "sample-experiment" m s))
  | none => Except.ok none

/-- Concrete environment for witnesses: the unit of name a self-registers,
every other load fails. -/
def envW1 : LoadEnv Nat := fun path =>
  if path = experimentPath "a" then LoadOutcome.success [("a", 1)]
  else LoadOutcome.failure (some "err")

/-- Concrete environment for witnesses: all loads succeed, the unit of name
a registers a and every other unit registers b. -/
def envW2 : LoadEnv Nat := fun path =>
  if path = experimentPath "a" then LoadOutcome.success [("a", 1)]
  else LoadOutcome.success [("b", 2)]

/-- Concrete environment for witnesses: every load succeeds without
registering anything. -/
def envW3 : LoadEnv Nat := fun _ => LoadOutcome.success []

/-! Basic registry lemmas. -/

theorem lookupReg_registerMap (r : List (String × M)) (name k : String)
    (m : M) :
    lookupReg (registerMap r name m) k
      = if k = name then some m else lookupReg r k := by
  induction r with
  | nil =>
    by_cases hk : k = name
    · simp [registerMap, lookupReg, hk]
    · simp [registerMap, lookupReg, beq_iff_eq, hk, Ne.symm hk]
  | cons p t ih =>
    by_cases hp : p.1 = name
    · by_cases hk : k = name
      · simp [registerMap, lookupReg, hp, hk]
      · simp [registerMap, lookupReg, beq_iff_eq, hp, hk, Ne.symm hk]
    · by_cases hpk : p.1 = k
      · have hk : ¬k = name := fun h => hp (hpk.trans h)
        simp [registerMap, lookupReg, beq_iff_eq, hp, hpk, hk]
      · simp [registerMap, lookupReg, beq_iff_eq, hp, hpk, ih]

theorem lookupReg_eq_none (r : List (String × M)) (k : String)
    (h : ∀ p ∈ r, p.1 ≠ k) :
    lookupReg r k = none := by
  induction r with
  | nil => rfl
  | cons p t ih =>
    have hp : p.1 ≠ k := h p (by simp)
    simp only [lookupReg, beq_iff_eq]
    rw [if_neg (by simpa using hp)]
    exact ih (fun q hq => h q (by simp [hq]))

theorem register_empty (m : M) (s : LoaderState M) : register "" m s = s := by
  simp [register]

theorem register_ne (name : String) (m : M) (s : LoaderState M)
    (h : name ≠ "") :
    register name m s
      = { s with
          registry := registerMap s.registry name m,
          log := s.log ++ [LogEntry.registering name] } := by
  simp [register, h]

theorem register_scripts (name : String) (m : M) (s : LoaderState M) :
    (register name m s).scripts = s.scripts := by
  by_cases h : name = "" <;> simp [register, h]

theorem get_register (name k : String) (m : M) (s : LoaderState M)
    (h : name ≠ "") :
    get k (register name m s)
      = if k = name then some m else get k s := by
  simp [get, register_ne name m s h, lookupReg_registerMap]

/-! Lemmas about batches of register calls. -/

theorem runRegs_registry (regs : List (String × M)) (s : LoaderState M) :
    (runRegs regs s).registry = applyRegs regs s.registry := by
  induction regs generalizing s with
  | nil => rfl
  | cons p rest ih =>
    by_cases hp : p.1 = ""
    · simp [runRegs, applyRegs, hp, register_empty, ih]
    · simp [runRegs, applyRegs, hp, register_ne p.1 p.2 s hp, ih]

theorem runRegs_scripts (regs : List (String × M)) (s : LoaderState M) :
    (runRegs regs s).scripts = s.scripts := by
  induction regs generalizing s with
  | nil => rfl
  | cons p rest ih =>
    simp [runRegs, ih, register_scripts]

theorem runRegs_log_append (regs : List (String × M)) (s : LoaderState M) :
    ∃ E, (runRegs regs s).log = s.log ++ E := by
  induction regs generalizing s with
  | nil => exact ⟨[], by simp [runRegs]⟩
  | cons p rest ih =>
    by_cases hp : p.1 = ""
    · simpa [runRegs, hp, register_empty] using ih (register p.1 p.2 s)
    · obtain ⟨E, hE⟩ := ih (register p.1 p.2 s)
      exact ⟨[LogEntry.registering p.1] ++ E, by
        simp [runRegs] at hE ⊢
        rw [hE, register_ne p.1 p.2 s hp]
        simp⟩

theorem lookupReg_applyRegs_not_mem (regs r : List (String × M)) (k : String)
    (h : ∀ m, (k, m) ∉ regs) :
    lookupReg (applyRegs regs r) k = lookupReg r k := by
  induction regs generalizing r with
  | nil => rfl
  | cons p rest ih =>
    have hk : p.1 ≠ k := by
      intro hpk
      exact h p.2 (by simp [← hpk])
    have hrest : ∀ m, (k, m) ∉ rest := fun m hm => h m (List.mem_cons_of_mem p hm)
    by_cases hp : p.1 = ""
    · simp [applyRegs, hp, ih _ hrest]
    · simp only [applyRegs]
      rw [if_neg hp, ih _ hrest, lookupReg_registerMap,
        if_neg (fun hkp => hk hkp.symm)]

theorem isSome_lookupReg_applyRegs (regs r : List (String × M)) (k : String)
    (h : (lookupReg r k).isSome = true) :
    (lookupReg (applyRegs regs r) k).isSome = true := by
  induction regs generalizing r with
  | nil => exact h
  | cons p rest ih =>
    by_cases hp : p.1 = ""
    · simp only [applyRegs]
      rw [if_pos hp]
      exact ih r h
    · simp only [applyRegs]
      rw [if_neg hp]
      refine ih _ ?_
      rw [lookupReg_registerMap]
      by_cases hk : k = p.1
      · simp [hk]
      · rw [if_neg hk]; exact h

theorem isSome_lookupReg_applyRegs_of_mem (regs r : List (String × M))
    (k : String) (m : M) (hk : k ≠ "") (hm : (k, m) ∈ regs) :
    (lookupReg (applyRegs regs r) k).isSome = true := by
  induction regs generalizing r with
  | nil => cases hm
  | cons p rest ih =>
    rcases List.mem_cons.mp hm with hhead | htail
    · simp only [applyRegs]
      have hp : p.1 ≠ "" := by rw [← hhead]; exact hk
      rw [if_neg hp]
      refine isSome_lookupReg_applyRegs rest _ k ?_
      rw [lookupReg_registerMap, ← hhead]
      simp
    · exact ih _ htail

theorem lookupReg_applyRegs_origin (regs r : List (String × M)) (k : String)
    (h : (lookupReg (applyRegs regs r) k).isSome = true) :
    (lookupReg r k).isSome = true ∨ ∃ m, (k, m) ∈ regs := by
  induction regs generalizing r with
  | nil => exact Or.inl h
  | cons p rest ih =>
    by_cases hp : p.1 = ""
    · simp only [applyRegs] at h
      rw [if_pos hp] at h
      rcases ih r h with hr | ⟨m, hm⟩
      · exact Or.inl hr
      · exact Or.inr ⟨m, List.mem_cons_of_mem p hm⟩
    · simp only [applyRegs] at h
      rw [if_neg hp] at h
      rcases ih _ h with hr | ⟨m, hm⟩
      · rw [lookupReg_registerMap] at hr
        by_cases hk : k = p.1
        · refine Or.inr ⟨p.2, ?_⟩
          rw [hk]
          exact List.mem_cons_self p rest
        · rw [if_neg hk] at hr
          exact Or.inl hr
      · exact Or.inr ⟨m, List.mem_cons_of_mem p hm⟩

/-! Lemmas about single load steps and the sequential loop. -/

theorem loadOne_registry (env : LoadEnv M) (n : String) (s : LoaderState M) :
    (loadOne env n s).registry = applyRegs (regsFor env n) s.registry := by
  cases henv : env (experimentPath n) with
  | failure e => simp [loadOne, loadScript, regsFor, henv, applyRegs]
  | success regs => simp [loadOne, loadScript, regsFor, henv, runRegs_registry]

theorem loadOne_scripts (env : LoadEnv M) (n : String) (s : LoaderState M) :
    (loadOne env n s).scripts = s.scripts ++ [experimentPath n] := by
  cases henv : env (experimentPath n) with
  | failure e => simp [loadOne, loadScript, henv]
  | success regs => simp [loadOne, loadScript, henv, runRegs_scripts]

theorem loadOne_log_failure (env : LoadEnv M) (n : String) (s : LoaderState M)
    (e : Option String) (henv : env (experimentPath n) = LoadOutcome.failure e) :
    (loadOne env n s).log = s.log ++ [LogEntry.failed n e] := by
  simp [loadOne, loadScript, henv]

theorem loadOne_log_success (env : LoadEnv M) (n : String) (s : LoaderState M)
    (regs : List (String × M))
    (henv : env (experimentPath n) = LoadOutcome.success regs) :
    ∃ E, (loadOne env n s).log = s.log ++ E ++ [LogEntry.loaded n] := by
  obtain ⟨E, hE⟩ :=
    runRegs_log_append regs { s with scripts := s.scripts ++ [experimentPath n] }
  refine ⟨E, ?_⟩
  simp only [loadOne, loadScript, henv]
  simp at hE
  simp [hE]

theorem loadOne_log_append (env : LoadEnv M) (n : String) (s : LoaderState M) :
    ∃ E, (loadOne env n s).log = s.log ++ E := by
  cases henv : env (experimentPath n) with
  | failure e => exact ⟨[LogEntry.failed n e], loadOne_log_failure env n s e henv⟩
  | success regs =>
    obtain ⟨E, hE⟩ := loadOne_log_success env n s regs henv
    exact ⟨E ++ [LogEntry.loaded n], by simp [hE]⟩

theorem loadLoop_registry (env : LoadEnv M) (names : List String)
    (s : LoaderState M) :
    (loadLoop env names s).registry = registryAfter env names s.registry := by
  induction names generalizing s with
  | nil => rfl
  | cons n rest ih =>
    simp [loadLoop, registryAfter, ih, loadOne_registry]

theorem loadLoop_scripts (env : LoadEnv M) (names : List String)
    (s : LoaderState M) :
    (loadLoop env names s).scripts = s.scripts ++ names.map experimentPath := by
  induction names generalizing s with
  | nil => simp [loadLoop]
  | cons n rest ih =>
    simp [loadLoop, ih, loadOne_scripts]

theorem loadLoop_log_append (env : LoadEnv M) (names : List String)
    (s : LoaderState M) :
    ∃ E, (loadLoop env names s).log = s.log ++ E := by
  induction names generalizing s with
  | nil => exact ⟨[], by simp [loadLoop]⟩
  | cons n rest ih =>
    obtain ⟨E1, hE1⟩ := loadOne_log_append env n s
    obtain ⟨E2, hE2⟩ := ih (loadOne env n s)
    exact ⟨E1 ++ E2, by simp [loadLoop, hE2, hE1]⟩

theorem loadLoop_log_mem (env : LoadEnv M) (names : List String)
    (s : LoaderState M) (x : LogEntry) (hx : x ∈ s.log) :
    x ∈ (loadLoop env names s).log := by
  obtain ⟨E, hE⟩ := loadLoop_log_append env names s
  rw [hE]
  exact List.mem_append_left E hx

theorem loadLoop_failed_mem (env : LoadEnv M) (names : List String)
    (s : LoaderState M) (n0 : String) (e : Option String)
    (hn : n0 ∈ names)
    (henv : env (experimentPath n0) = LoadOutcome.failure e) :
    LogEntry.failed n0 e ∈ (loadLoop env names s).log := by
  induction names generalizing s with
  | nil => cases hn
  | cons n rest ih =>
    rcases List.mem_cons.mp hn with hhead | htail
    · subst hhead
      simp only [loadLoop]
      refine loadLoop_log_mem env rest _ _ ?_
      rw [loadOne_log_failure env n0 s e henv]
      simp
    · exact ih _ htail

theorem loadLoop_loaded_sublist (env : LoadEnv M) (names : List String)
    (s : LoaderState M)
    (hsucc : ∀ n ∈ names, (env (experimentPath n)).isSuccess = true) :
    ∃ E, (loadLoop env names s).log = s.log ++ E
      ∧ List.Sublist (names.map LogEntry.loaded) E := by
  induction names generalizing s with
  | nil => exact ⟨[], by simp [loadLoop]⟩
  | cons n rest ih =>
    have hsn : (env (experimentPath n)).isSuccess = true := hsucc n (by simp)
    obtain ⟨regs, hregs⟩ : ∃ regs,
        env (experimentPath n) = LoadOutcome.success regs := by
      cases h : env (experimentPath n) with
      | failure e => rw [h] at hsn; cases hsn
      | success regs => exact ⟨regs, rfl⟩
    obtain ⟨E1, hE1⟩ := loadOne_log_success env n s regs hregs
    obtain ⟨E2, hE2, hsub⟩ :=
      ih (loadOne env n s) (fun q hq => hsucc q (List.mem_cons_of_mem n hq))
    refine ⟨E1 ++ [LogEntry.loaded n] ++ E2, ?_, ?_⟩
    · simp only [loadLoop]
      rw [hE2, hE1]
      simp
    · have h1 : List.Sublist ([] : List LogEntry) E1 := List.nil_sublist E1
      have h2 : List.Sublist [LogEntry.loaded n] [LogEntry.loaded n] :=
        List.Sublist.refl _
      have := List.Sublist.append (List.Sublist.append h1 h2) hsub
      simpa using this

theorem loadLoop_log_noregs (env : LoadEnv M) (names : List String)
    (s : LoaderState M)
    (hsucc : ∀ n ∈ names, (env (experimentPath n)).isSuccess = true)
    (hnone : ∀ n ∈ names, regsFor env n = []) :
    (loadLoop env names s).log = s.log ++ names.map LogEntry.loaded := by
  induction names generalizing s with
  | nil => simp [loadLoop]
  | cons n rest ih =>
    have hsn : (env (experimentPath n)).isSuccess = true := hsucc n (by simp)
    obtain ⟨regs, hregs⟩ : ∃ regs,
        env (experimentPath n) = LoadOutcome.success regs := by
      cases h : env (experimentPath n) with
      | failure e => rw [h] at hsn; cases hsn
      | success regs => exact ⟨regs, rfl⟩
    have hr : regs = [] := by
      have := hnone n (by simp)
      rw [regsFor, hregs] at this
      exact this
    subst hr
    have hone : (loadOne env n s).log = s.log ++ [LogEntry.loaded n] := by
      simp [loadOne, loadScript, hregs, runRegs]
    simp only [loadLoop]
    rw [ih (loadOne env n s) (fun q hq => hsucc q (List.mem_cons_of_mem n hq))
      (fun q hq => hnone q (List.mem_cons_of_mem n hq)), hone]
    simp

/-! Lemmas about the registry contents after a full loading pass. -/

theorem lookupReg_registryAfter_not_mem (env : LoadEnv M) (names : List String)
    (r : List (String × M)) (k : String)
    (h : ∀ n ∈ names, ∀ m, (k, m) ∉ regsFor env n) :
    lookupReg (registryAfter env names r) k = lookupReg r k := by
  induction names generalizing r with
  | nil => rfl
  | cons n rest ih =>
    simp only [registryAfter]
    rw [ih _ (fun q hq => h q (List.mem_cons_of_mem n hq)),
      lookupReg_applyRegs_not_mem _ _ _ (h n (by simp))]

theorem isSome_lookupReg_registryAfter (env : LoadEnv M) (names : List String)
    (r : List (String × M)) (k : String)
    (h : (lookupReg r k).isSome = true) :
    (lookupReg (registryAfter env names r) k).isSome = true := by
  induction names generalizing r with
  | nil => exact h
  | cons n rest ih =>
    exact ih _ (isSome_lookupReg_applyRegs _ _ _ h)

theorem isSome_lookupReg_registryAfter_of_mem (env : LoadEnv M)
    (names : List String) (r : List (String × M)) (n0 Y : String) (m : M)
    (hY : Y ≠ "") (hmem : n0 ∈ names) (hreg : (Y, m) ∈ regsFor env n0) :
    (lookupReg (registryAfter env names r) Y).isSome = true := by
  induction names generalizing r with
  | nil => cases hmem
  | cons n rest ih =>
    rcases List.mem_cons.mp hmem with hhead | htail
    · subst hhead
      simp only [registryAfter]
      exact isSome_lookupReg_registryAfter env rest _ Y
        (isSome_lookupReg_applyRegs_of_mem _ _ _ m hY hreg)
    · exact ih _ htail

theorem lookupReg_registryAfter_origin (env : LoadEnv M) (names : List String)
    (r : List (String × M)) (k : String)
    (h : (lookupReg (registryAfter env names r) k).isSome = true) :
    (lookupReg r k).isSome = true
      ∨ ∃ n ∈ names, ∃ m, (k, m) ∈ regsFor env n := by
  induction names generalizing r with
  | nil => exact Or.inl h
  | cons n rest ih =>
    simp only [registryAfter] at h
    rcases ih _ h with hr | ⟨q, hq, m, hm⟩
    · rcases lookupReg_applyRegs_origin _ _ _ hr with hr0 | ⟨m, hm⟩
      · exact Or.inl hr0
      · exact Or.inr ⟨n, by simp, m, hm⟩
    · exact Or.inr ⟨q, List.mem_cons_of_mem n hq, m, hm⟩

/-- Converts a Bool all-keys-differ hypothesis to non-membership. -/
theorem not_mem_of_all_keys_ne (regs : List (String × M)) (k : String)
    (h : (regs.all fun p => !(p.1 == k)) = true) :
    ∀ m, (k, m) ∉ regs := by
  intro m hm
  have := List.all_eq_true.mp h (k, m) hm
  simp at this

/-! Unfolding helpers for loadExperiments. -/

theorem loadExperiments_snd_eq (env : LoadEnv M) (names : List String)
    (s0 : LoaderState M) :
    (loadExperiments env names s0).2
      = loadLoop env names
          { s0 with log := s0.log ++ [LogEntry.loading names] } :=
  rfl

theorem loadExperiments_fst_eq (env : LoadEnv M) (names : List String)
    (s0 : LoaderState M) :
    (loadExperiments env names s0).1
      = registryAfter env names s0.registry := by
  have h : (loadExperiments env names s0).1
      = (loadLoop env names
          { s0 with log := s0.log ++ [LogEntry.loading names] }).registry :=
    rfl
  rw [h, loadLoop_registry]

theorem getD_set_same {α : Type} (l : List α) (i : Nat) (d : α) :
    (l.set i d).getD i d = d := by
  induction l generalizing i with
  | nil => simp [List.getD]
  | cons a t ih =>
    cases i with
    | zero => simp [List.getD]
    | succ j => simpa [List.getD] using ih j

theorem heapGetMap_deleteAllKeys (h : RegistryHeap M) (a : Nat) :
    heapGetMap (deleteAllKeys a h) a = [] :=
  getD_set_same h.store a []

/-! The claims. -/

/-- Claim C1: for every ordered sequence of requested names, if loadScript
fails for one name X, loadExperiments logs the diagnostic error
"Failed to load experiment X: failure" for X, continues with the remaining
names (every requested name is still attempted), and still resolves after
all names are attempted; X is absent from the returned mapping unless it was
independently registered, while every other successfully loading name that
registers itself still appears. -/
theorem loadExperiments_failure_isolation (env : LoadEnv M)
    (names : List String) (s0 : LoaderState M) (X : String) (e : Option String)
    (hX : X ∈ names)
    (hfail : env (experimentPath X) = LoadOutcome.failure e)
    (hfresh : lookupReg s0.registry X = none)
    (hnoreg : ∀ n ∈ names, ((regsFor env n).all fun p => !(p.1 == X)) = true) :
    LogEntry.failed X e ∈ (loadExperiments env names s0).2.log
    ∧ ("Failed to load experiment " ++ X ++ ": " ++ errText e)
        ∈ (loadExperiments env names s0).2.log.map render
    ∧ (loadExperiments env names s0).2.scripts
        = s0.scripts ++ names.map experimentPath
    ∧ lookupReg (loadExperiments env names s0).1 X = none
    ∧ ∀ Y ∈ names, Y ≠ "" → ∀ m, (Y, m) ∈ regsFor env Y →
        (lookupReg (loadExperiments env names s0).1 Y).isSome = true := by
  have hmem : LogEntry.failed X e ∈ (loadExperiments env names s0).2.log := by
    rw [loadExperiments_snd_eq]
    exact loadLoop_failed_mem env names _ X e hX hfail
  refine ⟨hmem, ?_, ?_, ?_, ?_⟩
  · exact List.mem_map_of_mem render hmem
  · rw [loadExperiments_snd_eq, loadLoop_scripts]
  · rw [loadExperiments_fst_eq,
      lookupReg_registryAfter_not_mem env names s0.registry X
        (fun n hn => not_mem_of_all_keys_ne _ _ (hnoreg n hn)),
      hfresh]
  · intro Y hY hYne m hm
    rw [loadExperiments_fst_eq]
    exact isSome_lookupReg_registryAfter_of_mem env names s0.registry Y Y m
      hYne hY hm

/-- Witness for C1 at a concrete input: names a and b, unit a registers
itself, the load of b fails. -/
theorem loadExperiments_failure_isolation_witness :
    LogEntry.failed "b" (some "err")
        ∈ (loadExperiments envW1 ["a", "b"] initialState).2.log
    ∧ ("Failed to load experiment " ++ "b" ++ ": " ++ errText (some "err"))
        ∈ (loadExperiments envW1 ["a", "b"] initialState).2.log.map render
    ∧ (loadExperiments envW1 ["a", "b"] initialState).2.scripts
        = ["a", "b"].map experimentPath
    ∧ lookupReg (loadExperiments envW1 ["a", "b"] initialState).1 "b" = none
    ∧ (lookupReg (loadExperiments envW1 ["a", "b"] initialState).1 "a").isSome
        = true := by
  have h := loadExperiments_failure_isolation envW1 ["a", "b"] initialState "b"
    (some "err") (by decide) (by decide) (by decide) (by decide)
  exact ⟨h.1, h.2.1, h.2.2.1, h.2.2.2.1,
    h.2.2.2.2 "a" (by decide) (by decide) 1 (by decide)⟩

/-- Claim C2: loadExperiments resolves with exactly the current contents of
the registry (getAll) after all names have been attempted; starting from an
empty registry, with no failing load, the returned mapping contains exactly
the names registered by the loaded units. -/
theorem loadExperiments_returns_registry (env : LoadEnv M)
    (names : List String) (s0 : LoaderState M)
    (hreg : s0.registry = [])
    (_hsucc : ∀ n ∈ names, (env (experimentPath n)).isSuccess = true)
    (hwf : ∀ n ∈ names, ((regsFor env n).all fun p => !(p.1 == "")) = true) :
    (loadExperiments env names s0).1 = getAll (loadExperiments env names s0).2
    ∧ ∀ k, (lookupReg (loadExperiments env names s0).1 k).isSome = true
        ↔ ∃ n ∈ names, ∃ m, (k, m) ∈ regsFor env n := by
  refine ⟨rfl, fun k => ⟨?_, ?_⟩⟩
  · intro h
    rw [loadExperiments_fst_eq, hreg] at h
    rcases lookupReg_registryAfter_origin env names [] k h with h0 | hmem
    · simp [lookupReg] at h0
    · exact hmem
  · rintro ⟨n, hn, m, hm⟩
    have hk : k ≠ "" := by
      have := List.all_eq_true.mp (hwf n hn) (k, m) hm
      simpa using this
    rw [loadExperiments_fst_eq]
    exact isSome_lookupReg_registryAfter_of_mem env names s0.registry n k m
      hk hn hm

/-- Witness for C2 at a concrete input: names a and b, both loads succeed,
unit a registers a and unit b registers b. -/
theorem loadExperiments_returns_registry_witness :
    (loadExperiments envW2 ["a", "b"] initialState).1
        = getAll (loadExperiments envW2 ["a", "b"] initialState).2
    ∧ ((lookupReg (loadExperiments envW2 ["a", "b"] initialState).1 "a").isSome
          = true
        ↔ ∃ n ∈ ["a", "b"], ∃ m, (("a" : String), m) ∈ regsFor envW2 n) := by
  have h := loadExperiments_returns_registry envW2 ["a", "b"] initialState rfl
    (by decide) (by decide)
  exact ⟨h.1, h.2 "a"⟩

/-- Claim C3: loading is strictly sequential, so the trace of a fully
successful run opens with the request-list entry and then contains the
per-name loaded entries in exactly the input order (and, when the units
register nothing, the trace is exactly that sequence); the script
descriptors are issued in input order, one per name. -/
theorem loadExperiments_sequential_trace (env : LoadEnv M)
    (names : List String) (s0 : LoaderState M)
    (hlog : s0.log = [])
    (hsucc : ∀ n ∈ names, (env (experimentPath n)).isSuccess = true) :
    (∃ E, (loadExperiments env names s0).2.log = LogEntry.loading names :: E
        ∧ List.Sublist (names.map LogEntry.loaded) E)
    ∧ List.Sublist
        ((LogEntry.loading names :: names.map LogEntry.loaded).map render)
        ((loadExperiments env names s0).2.log.map render)
    ∧ ((∀ n ∈ names, regsFor env n = []) →
        (loadExperiments env names s0).2.log
          = LogEntry.loading names :: names.map LogEntry.loaded)
    ∧ (loadExperiments env names s0).2.scripts
        = s0.scripts ++ names.map experimentPath := by
  obtain ⟨E, hE, hsub⟩ := loadLoop_loaded_sublist env names
    { s0 with log := s0.log ++ [LogEntry.loading names] } hsucc
  have hlog2 : (loadExperiments env names s0).2.log
      = LogEntry.loading names :: E := by
    rw [loadExperiments_snd_eq, hE]
    simp [hlog]
  refine ⟨⟨E, hlog2, hsub⟩, ?_, ?_, ?_⟩
  · rw [hlog2]
    simp only [List.map_cons]
    exact List.Sublist.cons₂ _ (List.Sublist.map render hsub)
  · intro hnone
    rw [loadExperiments_snd_eq, loadLoop_log_noregs env names _ hsucc hnone]
    simp [hlog]
  · rw [loadExperiments_snd_eq, loadLoop_scripts]

/-- Witness for C3 at a concrete input: names a, b, c, all loads succeed
without registering, trace is exactly the request entry followed by the
three loaded entries in input order. -/
theorem loadExperiments_sequential_trace_witness :
    (∃ E, (loadExperiments envW3 ["a", "b", "c"] initialState).2.log
        = LogEntry.loading ["a", "b", "c"] :: E
        ∧ List.Sublist (["a", "b", "c"].map LogEntry.loaded) E)
    ∧ (loadExperiments envW3 ["a", "b", "c"] initialState).2.log
        = LogEntry.loading ["a", "b", "c"]
          :: ["a", "b", "c"].map LogEntry.loaded
    ∧ (loadExperiments envW3 ["a", "b", "c"] initialState).2.scripts
        = ["a", "b", "c"].map experimentPath := by
  have h := loadExperiments_sequential_trace envW3 ["a", "b", "c"]
    initialState rfl (by decide)
  exact ⟨h.1, h.2.2.1 (by decide), h.2.2.2⟩

/-- Claim C4: for every requested name, loadExperiments constructs the
source path as the fixed template js/experiments/name/index.js and issues
exactly one loadScript invocation per name, in input order: the appended
script descriptors are exactly the templated paths of the names, in
order. -/
theorem loadExperiments_path_template (env : LoadEnv M)
    (names : List String) (s0 : LoaderState M) :
    (loadExperiments env names s0).2.scripts
      = s0.scripts
        ++ names.map (fun n => "js/experiments/" ++ n ++ "/index.js") := by
  rw [loadExperiments_snd_eq, loadLoop_scripts]
  rfl

/-- Counterexample for C5 as stated: it quantifies over every name, but the
empty name is rejected by register (spec section 4.1), so get after
register of the empty name does not return the registered module. -/
theorem register_get_identity_counterexample :
    get "" (register "" (0 : Nat) initialState) ≠ some 0 := by
  decide

/-- Claim C5 (amended to non-empty names, as the rejection of the empty
name forces): for every non-empty name, get after register returns the very
registered module, and a second registration under the same name silently
overwrites the first, get returning the second module. -/
theorem register_get_identity (name : String) (m1 m2 : M) (s : LoaderState M)
    (h : name ≠ "") :
    get name (register name m1 s) = some m1
    ∧ get name (register name m2 (register name m1 s)) = some m2 := by
  constructor
  · rw [get_register name name m1 s h, if_pos rfl]
  · rw [get_register name name m2 _ h, if_pos rfl]

/-- Witness for the amended C5 at a concrete input. -/
theorem register_get_identity_witness :
    get "exp" (register "exp" (1 : Nat) initialState) = some 1
    ∧ get "exp" (register "exp" 2 (register "exp" 1 initialState)) = some 2 :=
  register_get_identity "exp" 1 2 initialState (by decide)

/-- Claim C6: for every name that has never been registered, get returns
the absent sentinel (none); get is a total function, so it never throws. -/
theorem get_unregistered (s : LoaderState M) (name : String)
    (h : ∀ p ∈ s.registry, p.1 ≠ name) :
    get name s = none :=
  lookupReg_eq_none s.registry name h

/-- Witness for C6 at a concrete input. -/
theorem get_unregistered_witness :
    get "non-existent" (initialState : LoaderState Nat) = none :=
  get_unregistered initialState "non-existent" (by decide)

/-- Claim C7: every loadScript call appends exactly one script descriptor
with the source path to the document head, and its completion signal is
exactly one of success (resolve with no value) or failure, never both. -/
theorem loadScript_contract (env : LoadEnv M) (path : String)
    (s : LoaderState M) :
    (loadScript env path s).2.scripts = s.scripts ++ [path]
    ∧ ((loadScript env path s).1 = Except.ok ()
        ∨ ∃ e, (loadScript env path s).1 = Except.error e)
    ∧ ¬((loadScript env path s).1 = Except.ok ()
        ∧ ∃ e, (loadScript env path s).1 = Except.error e) := by
  cases henv : env path with
  | failure e =>
    refine ⟨?_, Or.inr ⟨e, ?_⟩, ?_⟩
    · simp [loadScript, henv]
    · simp [loadScript, henv]
    · rintro ⟨hok, e2, herr⟩
      cases hok.symm.trans herr
  | success regs =>
    refine ⟨?_, Or.inl ?_, ?_⟩
    · simp [loadScript, henv, runRegs_scripts]
    · simp [loadScript, henv]
    · rintro ⟨hok, e2, herr⟩
      cases hok.symm.trans herr

/-- Claim C8: getAll returns the live backing map of the registry, not an
independent copy — the address it returns is the backing address itself, so
deleting every key through the returned reference empties the registry:
any subsequent get returns the absent sentinel and dereferencing a
subsequent getAll yields the empty mapping. -/
theorem getAll_live_reference (h : RegistryHeap M) :
    hGetAll h = h.backing
    ∧ (∀ name, hGet name (deleteAllKeys (hGetAll h) h) = none)
    ∧ heapGetMap (deleteAllKeys (hGetAll h) h)
        (hGetAll (deleteAllKeys (hGetAll h) h)) = [] := by
  refine ⟨rfl, ?_, ?_⟩
  · intro name
    show lookupReg (heapGetMap (deleteAllKeys (hGetAll h) h) (hGetAll h)) name
        = none
    rw [heapGetMap_deleteAllKeys h (hGetAll h)]
    rfl
  · exact heapGetMap_deleteAllKeys h (hGetAll h)

/-- Claim C9: register validates only that the name is non-empty — the
empty name is rejected as a no-op, while for any non-empty name and any
module value whatsoever the call succeeds, mutates the shared map, emits
the diagnostic trace naming the registered experiment, and touches nothing
else. -/
theorem register_validation (s : LoaderState M) (name : String) (m : M) :
    (name = "" → register name m s = s)
    ∧ (name ≠ "" →
        get name (register name m s) = some m
        ∧ (register name m s).log = s.log ++ [LogEntry.registering name]
        ∧ ("Registering experiment: " ++ name)
            ∈ (register name m s).log.map render
        ∧ (register name m s).scripts = s.scripts) := by
  constructor
  · intro h
    rw [h]
    exact register_empty m s
  · intro h
    refine ⟨?_, ?_, ?_, ?_⟩
    · rw [get_register name name m s h, if_pos rfl]
    · rw [register_ne name m s h]
    · rw [register_ne name m s h]
      refine List.mem_map.mpr ⟨LogEntry.registering name, ?_, rfl⟩
      simp
    · exact register_scripts name m s

/-- Witness for C9 at concrete inputs: the empty name is a no-op, a
non-empty name registers and traces. -/
theorem register_validation_witness :
    register "" (0 : Nat) initialState = initialState
    ∧ get "x" (register "x" (0 : Nat) initialState) = some 0
    ∧ (register "x" (0 : Nat) initialState).log
        = [LogEntry.registering "x"] := by
  have h1 := (register_validation (initialState : LoaderState Nat) "" 0).1 rfl
  have h2 := (register_validation (initialState : LoaderState Nat) "x" 0).2
    (by decide)
  exact ⟨h1, h2.1, h2.2.1⟩

/-- Claim C10: the generated profile and sample-experiment units register
only after checking that window.ExperimentLoader is defined; evaluating
either unit with the loader absent completes without throwing and performs
no registration, while with the loader present each registers under its
name. -/
theorem unit_registration_guard (m : M) :
    evalProfileUnit m (none : Option (LoaderState M)) = Except.ok none
    ∧ evalSampleUnit m (none : Option (LoaderState M)) = Except.ok none
    ∧ (∀ s : LoaderState M,
        evalProfileUnit m (some s)
          = Except.ok (some (register "profile" m s)))
    ∧ (∀ s : LoaderState M,
        evalSampleUnit m (some s)
          = Except.ok (some (register "sample-experiment" m s))) :=
  ⟨rfl, rfl, fun _ => rfl, fun _ => rfl⟩

end ExperimentLoader
